import Mathlib

/-!
Verification of the Attrition Analysis System against its specification.

The repository is a fullstack HR-attrition analyser: a FastAPI backend
trains a logistic-regression model and scores employees, and a React
frontend renders risk tiers, confusion matrices, feature importances,
retention strategies and insight cards.  The backend pipeline itself is
not part of the checked-in sources here, so the Risk Scorer, the Model
Trainer evaluation split, the Feature Encoder and the FeatureImportance
sort are modelled from the specification (each such definition is marked
in its doc comment).  The frontend helpers (calculateAttritionStats,
calculateOvertimeImpact, generateInsights, renderConfusion,
getRetentionStrategies) are translated directly from the JavaScript
sources; JavaScript numbers are modelled as rationals, JavaScript
truthiness and optional chaining are modelled explicitly.
-/

namespace Attrition

/-! ## Risk tiers (spec section 4.4, frontend email docs) -/

inductive RiskLevel where
  | Critical
  | High
  | Moderate
  deriving DecidableEq, Repr

/-- Modelled from the spec: the backend Risk Scorer (absent from the
checked-in sources) assigns a categorical tier to an attrition
probability with fixed, inclusive lower bounds: probability at least
0.80 is Critical, at least 0.60 is High, at least 0.50 is Moderate,
and anything below 0.50 is not at risk (no tier). -/
def riskTier (p : ℚ) : Option RiskLevel :=
  if 4/5 ≤ p then some .Critical
  else if 3/5 ≤ p then some .High
  else if 1/2 ≤ p then some .Moderate
  else none

/-! ## Scoring summary (spec section 6, at_risk_employees endpoint) -/

structure AtRiskEmployee where
  index : Nat
  attrition_probability : ℚ
  risk_level : RiskLevel
  deriving DecidableEq, Repr

structure ScoreSummary where
  total_employees : Nat
  at_risk_count : Nat
  critical_count : Nat
  risk_percentage : ℚ
  at_risk_employees : List AtRiskEmployee
  deriving DecidableEq, Repr

/-- Modelled from the spec: the at-risk listing of a scoring batch.
Rows are indexed in order from `i`; a row enters the listing exactly
when the tiering function assigns it a tier. -/
def assessFrom (i : Nat) : List ℚ → List AtRiskEmployee
  | [] => []
  | p :: ps =>
    match riskTier p with
    | some t => ⟨i, p, t⟩ :: assessFrom (i + 1) ps
    | none => assessFrom (i + 1) ps

/-- Modelled from the spec: the scoring endpoint returns the summary
record with total row count, at-risk count, critical count, risk
percentage and the ordered at-risk listing (backend absent from the
checked-in sources). -/
def scoreSummary (probs : List ℚ) : ScoreSummary :=
  let atRisk := assessFrom 0 probs
  { total_employees := probs.length
    at_risk_count := atRisk.length
    critical_count := (atRisk.filter (fun e => e.risk_level = .Critical)).length
    risk_percentage := (atRisk.length : ℚ) / (probs.length : ℚ) * 100
    at_risk_employees := atRisk }

/-! ## Basic tiering lemmas -/

theorem riskTier_eq_critical (p : ℚ) : riskTier p = some .Critical ↔ 4/5 ≤ p := by
  unfold riskTier
  split_ifs with h1 h2 h3
  · exact iff_of_true rfl h1
  · exact iff_of_false (by simp) h1
  · exact iff_of_false (by simp) h1
  · exact iff_of_false (by simp) h1

theorem riskTier_eq_high (p : ℚ) : riskTier p = some .High ↔ 3/5 ≤ p ∧ p < 4/5 := by
  unfold riskTier
  split_ifs with h1 h2 h3
  · exact iff_of_false (by simp) (fun h => absurd h1 (not_le.mpr h.2))
  · exact iff_of_true rfl ⟨h2, lt_of_not_le h1⟩
  · exact iff_of_false (by simp) (fun h => h2 h.1)
  · exact iff_of_false (by simp) (fun h => h3 (by linarith [h.1]))

theorem riskTier_eq_moderate (p : ℚ) : riskTier p = some .Moderate ↔ 1/2 ≤ p ∧ p < 3/5 := by
  unfold riskTier
  split_ifs with h1 h2 h3
  · exact iff_of_false (by simp) (fun h => absurd h.2 (not_lt.mpr (by linarith)))
  · exact iff_of_false (by simp) (fun h => absurd h2 (not_le.mpr h.2))
  · exact iff_of_true rfl ⟨h3, lt_of_not_le h2⟩
  · exact iff_of_false (by simp) (fun h => h3 h.1)

theorem riskTier_eq_none (p : ℚ) : riskTier p = none ↔ p < 1/2 := by
  unfold riskTier
  split_ifs with h1 h2 h3
  · exact iff_of_false (by simp) (not_lt.mpr (by linarith))
  · exact iff_of_false (by simp) (not_lt.mpr (by linarith))
  · exact iff_of_false (by simp) (not_lt.mpr h3)
  · exact iff_of_true rfl (lt_of_not_le h3)

theorem riskTier_isSome (p : ℚ) : (riskTier p).isSome = true ↔ 1/2 ≤ p := by
  unfold riskTier
  split_ifs with h1 h2 h3
  · exact iff_of_true rfl (by linarith)
  · exact iff_of_true rfl (by linarith)
  · exact iff_of_true rfl h3
  · exact iff_of_false (by simp) h3

/-- C1: risk tiering is a pure deterministic function of the attrition
probability with fixed inclusive lower bounds: probability at least 0.80
is Critical, in [0.60, 0.80) is High, in [0.50, 0.60) is Moderate, and
below 0.50 is not at risk; concretely 0.85 is Critical, 0.55 is
Moderate, and a 0.3 row is excluded from the at-risk listing. -/
theorem c1_risk_tiering (p : ℚ) :
    (riskTier p = some .Critical ↔ 4/5 ≤ p) ∧
    (riskTier p = some .High ↔ 3/5 ≤ p ∧ p < 4/5) ∧
    (riskTier p = some .Moderate ↔ 1/2 ≤ p ∧ p < 3/5) ∧
    (riskTier p = none ↔ p < 1/2) ∧
    riskTier (85/100) = some .Critical ∧
    riskTier (55/100) = some .Moderate ∧
    riskTier (3/10) = none ∧
    (scoreSummary [85/100, 55/100, 3/10]).at_risk_employees =
      [⟨0, 85/100, .Critical⟩, ⟨1, 55/100, .Moderate⟩] := by
  have e1 : riskTier (85/100) = some .Critical := (riskTier_eq_critical _).mpr (by norm_num)
  have e2 : riskTier (55/100) = some .Moderate := (riskTier_eq_moderate _).mpr (by norm_num)
  have e3 : riskTier (3/10) = none := (riskTier_eq_none _).mpr (by norm_num)
  refine ⟨riskTier_eq_critical p, riskTier_eq_high p, riskTier_eq_moderate p,
    riskTier_eq_none p, e1, e2, e3, ?_⟩
  simp [scoreSummary, assessFrom, e1, e2, e3]

/-! ## C2: scoring summary counts -/

theorem assessFrom_length (i : Nat) (probs : List ℚ) :
    (assessFrom i probs).length = probs.countP (fun p => decide (1/2 ≤ p)) := by
  induction probs generalizing i with
  | nil => simp [assessFrom]
  | cons p ps ih =>
    cases h : riskTier p with
    | none =>
      have hp : ¬ (2⁻¹ : ℚ) ≤ p := by
        have h2 := (riskTier_eq_none p).mp h
        intro hc
        linarith
      simp [assessFrom, h, List.countP_cons, hp, ih]
    | some t =>
      have hp : (2⁻¹ : ℚ) ≤ p := by
        have h2 := (riskTier_isSome p).mp (by rw [h]; rfl)
        linarith
      simp [assessFrom, h, List.countP_cons, hp, ih]

theorem assessFrom_map_prob (i : Nat) (probs : List ℚ) :
    (assessFrom i probs).map (fun e => e.attrition_probability) =
      probs.filter (fun p => decide (1/2 ≤ p)) := by
  induction probs generalizing i with
  | nil => simp [assessFrom]
  | cons p ps ih =>
    cases h : riskTier p with
    | none =>
      have hp : ¬ (2⁻¹ : ℚ) ≤ p := by
        have h2 := (riskTier_eq_none p).mp h
        intro hc
        linarith
      simp [assessFrom, h, List.filter_cons, hp, ih]
    | some t =>
      have hp : (2⁻¹ : ℚ) ≤ p := by
        have h2 := (riskTier_isSome p).mp (by rw [h]; rfl)
        linarith
      simp [assessFrom, h, List.filter_cons, hp, ih]

theorem assessFrom_critical_length (i : Nat) (probs : List ℚ) :
    ((assessFrom i probs).filter (fun e => e.risk_level = .Critical)).length =
      probs.countP (fun p => decide (4/5 ≤ p)) := by
  induction probs generalizing i with
  | nil => simp [assessFrom]
  | cons p ps ih =>
    cases h : riskTier p with
    | none =>
      have hp : ¬ (4/5 : ℚ) ≤ p := by
        have := (riskTier_eq_none p).mp h
        intro hc
        linarith
      simp [assessFrom, h, List.countP_cons, hp, ih]
    | some t =>
      cases t with
      | Critical =>
        have hp : (4/5 : ℚ) ≤ p := (riskTier_eq_critical p).mp h
        simp [assessFrom, h, List.filter_cons, List.countP_cons, hp, ih]
      | High =>
        have hp : ¬ (4/5 : ℚ) ≤ p := not_le.mpr ((riskTier_eq_high p).mp h).2
        simp [assessFrom, h, List.filter_cons, List.countP_cons, hp, ih]
      | Moderate =>
        have hp : ¬ (4/5 : ℚ) ≤ p := by
          have := ((riskTier_eq_moderate p).mp h).2
          intro hc
          linarith
        simp [assessFrom, h, List.filter_cons, List.countP_cons, hp, ih]

/-- C2: the scoring output is the record of total_employees,
at_risk_count, critical_count, risk_percentage and the ordered
at_risk_employees list, where at_risk_count counts rows at or above the
Moderate threshold 0.5, critical_count counts rows in the Critical tier
(at or above 0.8), the at-risk listing keeps exactly the rows at or
above 0.5 in order, and risk_percentage is at_risk_count divided by
total_employees times 100. -/
theorem c2_score_summary (probs : List ℚ) :
    (scoreSummary probs).total_employees = probs.length ∧
    (scoreSummary probs).at_risk_count = probs.countP (fun p => decide (1/2 ≤ p)) ∧
    (scoreSummary probs).critical_count = probs.countP (fun p => decide (4/5 ≤ p)) ∧
    (scoreSummary probs).risk_percentage =
      ((scoreSummary probs).at_risk_count : ℚ) / (probs.length : ℚ) * 100 ∧
    (scoreSummary probs).at_risk_employees.map (fun e => e.attrition_probability) =
      probs.filter (fun p => decide (1/2 ≤ p)) ∧
    (scoreSummary probs).at_risk_count = (scoreSummary probs).at_risk_employees.length := by
  refine ⟨rfl, ?_, ?_, ?_, ?_, rfl⟩
  · exact assessFrom_length 0 probs
  · exact assessFrom_critical_length 0 probs
  · rfl
  · exact assessFrom_map_prob 0 probs

/-! ## C3: confusion matrix over the held-out partition -/

structure ConfusionMatrix where
  tn : Nat
  fp : Nat
  fn : Nat
  tp : Nat
  deriving DecidableEq, Repr

/-- Modelled from the spec: the Model Trainer (absent from the
checked-in sources) splits the encoded dataset 80/20 deterministically;
the held-out evaluation partition is the trailing 20 percent of rows. -/
def heldOutRows {α : Type} (rows : List α) : List α :=
  rows.drop (80 * rows.length / 100)

/-- Modelled from the spec: the 2x2 confusion matrix of a predictor
against the actual labels over a list of evaluation rows, laid out as
[[TN, FP], [FN, TP]]. -/
def confusionOn {α : Type} (actual predicted : α → Bool) (rows : List α) : ConfusionMatrix :=
  { tn := rows.countP (fun r => !actual r && !predicted r)
    fp := rows.countP (fun r => !actual r && predicted r)
    fn := rows.countP (fun r => actual r && !predicted r)
    tp := rows.countP (fun r => actual r && predicted r) }

/-- Modelled from the spec: the trainer computes the confusion matrix on
the held-out partition only, never on the full training dataset. -/
def trainedConfusion {α : Type} (actual predicted : α → Bool) (rows : List α) :
    ConfusionMatrix :=
  confusionOn actual predicted (heldOutRows rows)

theorem confusionOn_sum {α : Type} (actual predicted : α → Bool) (rows : List α) :
    (confusionOn actual predicted rows).tn + (confusionOn actual predicted rows).fp +
      (confusionOn actual predicted rows).fn + (confusionOn actual predicted rows).tp =
      rows.length := by
  induction rows with
  | nil => simp [confusionOn]
  | cons r rs ih =>
    simp only [confusionOn, List.countP_cons, List.length_cons] at *
    cases ha : actual r <;> cases hp : predicted r <;> simp [ha, hp] <;> omega

/-- C3: for every trained Analysis the confusion matrix entries are
non-negative integers summing to the held-out partition size, and for a
40-row training dataset the held-out partition has 8 rows, so the four
entries sum to 8 and not to 40. -/
theorem c3_confusion_heldout {α : Type} (actual predicted : α → Bool) (rows : List α) :
    (trainedConfusion actual predicted rows).tn +
      (trainedConfusion actual predicted rows).fp +
      (trainedConfusion actual predicted rows).fn +
      (trainedConfusion actual predicted rows).tp = (heldOutRows rows).length ∧
    (rows.length = 40 →
      (heldOutRows rows).length = 8 ∧
      (trainedConfusion actual predicted rows).tn +
        (trainedConfusion actual predicted rows).fp +
        (trainedConfusion actual predicted rows).fn +
        (trainedConfusion actual predicted rows).tp ≠ 40) := by
  refine ⟨confusionOn_sum actual predicted (heldOutRows rows), fun h40 => ?_⟩
  have hlen : (heldOutRows rows).length = 8 := by
    simp [heldOutRows, h40]
  refine ⟨hlen, ?_⟩
  have hsum := confusionOn_sum actual predicted (heldOutRows rows)
  unfold trainedConfusion
  rw [hsum, hlen]
  omega

/-- Witness for C3 at a concrete 40-row dataset: the matrix entries sum
to the held-out size 8, not 40. -/
theorem c3_confusion_heldout_witness :
    (List.replicate 40 (true, false)).length = 40 ∧
    (heldOutRows (List.replicate 40 (true, false))).length = 8 ∧
    (trainedConfusion Prod.fst Prod.snd (List.replicate 40 (true, false))).tn +
      (trainedConfusion Prod.fst Prod.snd (List.replicate 40 (true, false))).fp +
      (trainedConfusion Prod.fst Prod.snd (List.replicate 40 (true, false))).fn +
      (trainedConfusion Prod.fst Prod.snd (List.replicate 40 (true, false))).tp ≠ 40 := by
  have h := (c3_confusion_heldout (α := Bool × Bool) Prod.fst Prod.snd
    (List.replicate 40 (true, false))).2 (by decide)
  exact ⟨by decide, h.1, h.2⟩

/-! ## C4: the frontend attrition statistics over the confusion matrix

Translated from the Insights component (calculateAttritionStats).
JavaScript numbers are modelled as rationals; the optional chain
`analysis.artifacts?.confusion_matrix || []` is modelled with Option;
`x || 0` on a possibly-missing number is modelled with getD 0 (on a
present number it is the identity, since 0 || 0 is 0).  The toFixed(1)
display formatting of the percentage is not modelled: the percentage is
kept as the exact rational. -/

structure Metrics where
  accuracy : ℚ
  precisionScore : ℚ
  recallScore : ℚ
  f1 : ℚ
  deriving DecidableEq, Repr

structure Artifacts where
  confusion_matrix : Option (List (List ℚ))
  deriving DecidableEq, Repr

structure AnalysisObj where
  metrics : Option Metrics
  artifacts : Option Artifacts
  deriving DecidableEq, Repr

structure AttritionStats where
  attritionPercentage : ℚ
  totalEmployees : ℚ
  attritionCount : ℚ
  deriving DecidableEq, Repr

def calculateAttritionStats (analysis : AnalysisObj) : AttritionStats :=
  let confusionMatrix := (analysis.artifacts.bind (fun a => a.confusion_matrix)).getD []
  let tc : ℚ × ℚ :=
    if confusionMatrix.length > 0 then
      if (confusionMatrix.get? 0).map List.length = some 2 then
        let tn := ((confusionMatrix.get? 0).bind (fun r => r.get? 0)).getD 0
        let fp := ((confusionMatrix.get? 0).bind (fun r => r.get? 1)).getD 0
        let fn := ((confusionMatrix.get? 1).bind (fun r => r.get? 0)).getD 0
        let tp := ((confusionMatrix.get? 1).bind (fun r => r.get? 1)).getD 0
        (tn + fp + fn + tp, tp + fn)
      else if confusionMatrix.length = 1 ∧ (confusionMatrix.get? 0).map List.length = some 1 then
        (((confusionMatrix.get? 0).bind (fun r => r.get? 0)).getD 0, 0)
      else (0, 0)
    else (0, 0)
  { attritionPercentage := if tc.1 > 0 then tc.2 / tc.1 * 100 else 0
    totalEmployees := tc.1
    attritionCount := tc.2 }

/-- C4: the confusion matrix is laid out as [[TN, FP], [FN, TP]]: on any
such matrix calculateAttritionStats computes the total number of
evaluated rows as TN + FP + FN + TP and the number of actual positive
attrition cases as TP + FN. -/
theorem c4_confusion_layout (m : Option Metrics) (tn fp fn tp : ℚ) :
    (calculateAttritionStats ⟨m, some ⟨some [[tn, fp], [fn, tp]]⟩⟩).totalEmployees =
      tn + fp + fn + tp ∧
    (calculateAttritionStats ⟨m, some ⟨some [[tn, fp], [fn, tp]]⟩⟩).attritionCount =
      tp + fn := by
  constructor <;> simp [calculateAttritionStats]

/-! ## C6: retention strategy derivation

Translated from getRetentionStrategies in the AtRiskEmployees component.
Each JavaScript guard of the form `data[field] && data[field] < bound`
first tests truthiness of the raw value, so a present value of 0 does
not fire the rule; this is modelled by truthyAndLt / truthyAndGt. -/

structure EmployeeData where
  Overtime : Option String := none
  JobSatisfaction : Option ℚ := none
  JobInvolvement : Option ℚ := none
  YearsSinceLastPromotion : Option ℚ := none
  MonthlyIncome : Option ℚ := none
  YearsAtCompany : Option ℚ := none
  WorkLifeBalance : Option ℚ := none
  deriving DecidableEq, Repr

def truthyAndLt (v : Option ℚ) (b : ℚ) : Bool :=
  match v with
  | some x => decide (x ≠ 0) && decide (x < b)
  | none => false

def truthyAndGt (v : Option ℚ) (b : ℚ) : Bool :=
  match v with
  | some x => decide (x ≠ 0) && decide (b < x)
  | none => false

def retentionChecks (d : EmployeeData) : List String :=
  (if d.Overtime = some "Yes" then ["💼 Reduce overtime and workload"] else []) ++
  (if truthyAndLt d.JobSatisfaction 3 then
    ["😊 Improve job satisfaction - conduct engagement surveys"] else []) ++
  (if truthyAndLt d.JobInvolvement 3 then
    ["🎯 Increase job involvement - assign meaningful projects"] else []) ++
  (if truthyAndGt d.YearsSinceLastPromotion 5 then
    ["📈 Consider promotion or career advancement"] else []) ++
  (if truthyAndLt d.MonthlyIncome 3000 then ["💰 Review and adjust salary"] else []) ++
  (if truthyAndLt d.YearsAtCompany 2 then
    ["👥 Provide better onboarding and mentorship"] else []) ++
  (if truthyAndLt d.WorkLifeBalance 3 then
    ["⏰ Improve work-life balance initiatives"] else [])

def getRetentionStrategies (d : EmployeeData) : List String :=
  if (retentionChecks d).length > 0 then retentionChecks d
  else ["💬 Schedule one-on-one meeting to understand concerns"]

theorem getRetentionStrategies_of_mem {d : EmployeeData} {x : String}
    (h : x ∈ retentionChecks d) : getRetentionStrategies d = retentionChecks d := by
  unfold getRetentionStrategies
  rw [if_pos (List.length_pos.mpr (List.ne_nil_of_mem h))]

/-- C6 counterexample to the claim as stated: an employee whose
years-at-company value is 0 satisfies the condition "years at company
below 2", yet the onboarding suggestion is not produced (the JavaScript
truthiness guard skips a 0 value) and the result is only the generic
suggestion. -/
theorem c6_counterexample :
    ((0 : ℚ) < 2) ∧
    getRetentionStrategies { YearsAtCompany := some 0 } =
      ["💬 Schedule one-on-one meeting to understand concerns"] ∧
    "👥 Provide better onboarding and mentorship" ∉
      getRetentionStrategies { YearsAtCompany := some 0 } := by
  have hchecks : retentionChecks { YearsAtCompany := some 0 } = [] := by
    simp [retentionChecks, truthyAndLt, truthyAndGt]
  refine ⟨by norm_num, ?_, ?_⟩
  · unfold getRetentionStrategies
    rw [hchecks]
    rfl
  · unfold getRetentionStrategies
    rw [hchecks]
    simp

/-- C6 (amended): the retention-strategy derivation always returns a
non-empty list; each rule fires when its field is present with a
truthy (nonzero) value meeting its comparison, contributing its
suggestion; and when no rule fires the result is exactly the single
generic suggestion. -/
theorem c6_retention_strategies (d : EmployeeData) :
    getRetentionStrategies d ≠ [] ∧
    (d.Overtime = some "Yes" →
      "💼 Reduce overtime and workload" ∈ getRetentionStrategies d) ∧
    (truthyAndLt d.JobSatisfaction 3 = true →
      "😊 Improve job satisfaction - conduct engagement surveys" ∈ getRetentionStrategies d) ∧
    (truthyAndLt d.JobInvolvement 3 = true →
      "🎯 Increase job involvement - assign meaningful projects" ∈ getRetentionStrategies d) ∧
    (truthyAndGt d.YearsSinceLastPromotion 5 = true →
      "📈 Consider promotion or career advancement" ∈ getRetentionStrategies d) ∧
    (truthyAndLt d.MonthlyIncome 3000 = true →
      "💰 Review and adjust salary" ∈ getRetentionStrategies d) ∧
    (truthyAndLt d.YearsAtCompany 2 = true →
      "👥 Provide better onboarding and mentorship" ∈ getRetentionStrategies d) ∧
    (truthyAndLt d.WorkLifeBalance 3 = true →
      "⏰ Improve work-life balance initiatives" ∈ getRetentionStrategies d) ∧
    (retentionChecks d = [] →
      getRetentionStrategies d = ["💬 Schedule one-on-one meeting to understand concerns"]) := by
  refine ⟨?_, ?_, ?_, ?_, ?_, ?_, ?_, ?_, ?_⟩
  · unfold getRetentionStrategies
    split_ifs with h
    · exact List.ne_nil_of_length_pos h
    · simp
  · intro hc
    have hx : "💼 Reduce overtime and workload" ∈ retentionChecks d := by
      simp [retentionChecks, hc]
    rw [getRetentionStrategies_of_mem hx]
    exact hx
  · intro hc
    have hx : "😊 Improve job satisfaction - conduct engagement surveys" ∈ retentionChecks d := by
      simp [retentionChecks, hc]
    rw [getRetentionStrategies_of_mem hx]
    exact hx
  · intro hc
    have hx : "🎯 Increase job involvement - assign meaningful projects" ∈ retentionChecks d := by
      simp [retentionChecks, hc]
    rw [getRetentionStrategies_of_mem hx]
    exact hx
  · intro hc
    have hx : "📈 Consider promotion or career advancement" ∈ retentionChecks d := by
      simp [retentionChecks, hc]
    rw [getRetentionStrategies_of_mem hx]
    exact hx
  · intro hc
    have hx : "💰 Review and adjust salary" ∈ retentionChecks d := by
      simp [retentionChecks, hc]
    rw [getRetentionStrategies_of_mem hx]
    exact hx
  · intro hc
    have hx : "👥 Provide better onboarding and mentorship" ∈ retentionChecks d := by
      simp [retentionChecks, hc]
    rw [getRetentionStrategies_of_mem hx]
    exact hx
  · intro hc
    have hx : "⏰ Improve work-life balance initiatives" ∈ retentionChecks d := by
      simp [retentionChecks, hc]
    rw [getRetentionStrategies_of_mem hx]
    exact hx
  · intro hc
    unfold getRetentionStrategies
    rw [hc]
    rfl

/-- Witness for C6 at a concrete employee working overtime with low
satisfaction: both corresponding suggestions are produced. -/
theorem c6_retention_strategies_witness :
    "💼 Reduce overtime and workload" ∈
      getRetentionStrategies { Overtime := some "Yes", JobSatisfaction := some 2 } ∧
    "😊 Improve job satisfaction - conduct engagement surveys" ∈
      getRetentionStrategies { Overtime := some "Yes", JobSatisfaction := some 2 } := by
  refine ⟨(c6_retention_strategies _).2.1 rfl, ?_⟩
  exact (c6_retention_strategies _).2.2.1 (by norm_num [truthyAndLt])

/-! ## C8: renderConfusion normalization

Translated from renderConfusion in the Analysis page (the Upload page
carries the same logic).  Arbitrary JavaScript values are modelled by
JsVal; property access on null or undefined throws (modelled with
Except), indexing a number yields undefined, and the try/catch around
the normalization maps any throw to the zero matrix.  The chart/table
rendering below the normalization calls row.map on every row of the
normalized value, which throws when a row is not an array; that step is
outside the try/catch and is modelled by renderRows. -/

inductive JsVal where
  | num (n : ℚ)
  | str (s : String)
  | null
  | undef
  | arr (xs : List JsVal)

def JsVal.isArr : JsVal → Bool
  | .arr _ => true
  | _ => false

def JsVal.elems : JsVal → List JsVal
  | .arr xs => xs
  | _ => []

def JsVal.truthy : JsVal → Bool
  | .num n => decide (n ≠ 0)
  | .str s => decide (s ≠ "")
  | .null => false
  | .undef => false
  | .arr _ => true

def jsOrZero (v : JsVal) : JsVal :=
  if v.truthy then v else .num 0

def jsIndex : JsVal → Nat → Except Unit JsVal
  | .null, _ => .error ()
  | .undef, _ => .error ()
  | .arr xs, i => .ok ((xs.get? i).getD .undef)
  | .num _, _ => .ok .undef
  | .str _, _ => .ok .undef

def zeroCm : JsVal :=
  .arr [.arr [.num 0, .num 0], .arr [.num 0, .num 0]]

def padRow (r : JsVal) : JsVal :=
  match r with
  | .arr xs => .arr ((xs ++ [JsVal.num 0, JsVal.num 0]).take 2)
  | _ => .arr [JsVal.num 0, JsVal.num 0]

def fixLen2 (c : JsVal) : JsVal :=
  match c with
  | .arr xs => if xs.length = 2 then .arr (xs.map padRow) else .arr xs
  | v => v

def normStep2 : JsVal → JsVal
  | .arr [r] =>
    match jsIndex r 0 with
    | .ok v => fixLen2 (.arr [.arr [jsOrZero v, .num 0], .arr [.num 0, .num 0]])
    | .error _ => zeroCm
  | c => fixLen2 c

def renderConfusionNormalize (cm : JsVal) : JsVal :=
  normStep2
    (match cm with
     | .arr xs => if xs.length = 0 then zeroCm else .arr xs
     | _ => zeroCm)

def is2x2 (v : JsVal) : Bool :=
  match v with
  | .arr [.arr r0, .arr r1] => decide (r0.length = 2) && decide (r1.length = 2)
  | _ => false

def rowsListOf : List JsVal → Except Unit (List (List JsVal))
  | [] => .ok []
  | r :: rs =>
    match r with
    | .arr xs => (rowsListOf rs).map (fun l => xs :: l)
    | _ => .error ()

def renderRows (cm : JsVal) : Except Unit (List (List JsVal)) :=
  match renderConfusionNormalize cm with
  | .arr rows => rowsListOf rows
  | _ => .error ()

/-- C8 counterexample to the claim as stated: a 3x2 confusion matrix
value is left completely unnormalized (three rows, not two), and the
value [1,2,3] reaches the row-rendering step un-normalized, where
row.map on a number throws. -/
theorem c8_counterexample :
    renderConfusionNormalize
        (.arr [.arr [.num 1, .num 2], .arr [.num 3, .num 4], .arr [.num 5, .num 6]]) =
      .arr [.arr [.num 1, .num 2], .arr [.num 3, .num 4], .arr [.num 5, .num 6]] ∧
    is2x2 (renderConfusionNormalize
        (.arr [.arr [.num 1, .num 2], .arr [.num 3, .num 4], .arr [.num 5, .num 6]])) =
      false ∧
    renderRows (.arr [.num 1, .num 2, .num 3]) = .error () := by
  refine ⟨rfl, rfl, rfl⟩

theorem padRow_shape (r : JsVal) : ∃ a b, padRow r = .arr [a, b] := by
  cases r with
  | arr xs =>
    rcases xs with _ | ⟨x, _ | ⟨y, rest⟩⟩
    · exact ⟨.num 0, .num 0, rfl⟩
    · exact ⟨x, .num 0, rfl⟩
    · exact ⟨x, y, rfl⟩
  | num n => exact ⟨.num 0, .num 0, rfl⟩
  | str s => exact ⟨.num 0, .num 0, rfl⟩
  | null => exact ⟨.num 0, .num 0, rfl⟩
  | undef => exact ⟨.num 0, .num 0, rfl⟩

theorem normalize_shape (cm : JsVal) (h : cm.isArr = false ∨ cm.elems.length ≤ 2) :
    ∃ x1 y1 x2 y2, renderConfusionNormalize cm =
      .arr [.arr [x1, y1], .arr [x2, y2]] := by
  cases cm with
  | arr xs =>
    rcases xs with _ | ⟨r, _ | ⟨r2, _ | ⟨r3, rest⟩⟩⟩
    · exact ⟨.num 0, .num 0, .num 0, .num 0, rfl⟩
    · cases r with
      | arr ys => exact ⟨jsOrZero ((ys.get? 0).getD .undef), .num 0, .num 0, .num 0, rfl⟩
      | num n => exact ⟨.num 0, .num 0, .num 0, .num 0, rfl⟩
      | str s => exact ⟨.num 0, .num 0, .num 0, .num 0, rfl⟩
      | null => exact ⟨.num 0, .num 0, .num 0, .num 0, rfl⟩
      | undef => exact ⟨.num 0, .num 0, .num 0, .num 0, rfl⟩
    · obtain ⟨a1, b1, h1⟩ := padRow_shape r
      obtain ⟨a2, b2, h2⟩ := padRow_shape r2
      refine ⟨a1, b1, a2, b2, ?_⟩
      show fixLen2 (.arr [r, r2]) = _
      simp [fixLen2, h1, h2]
    · exfalso
      rcases h with h | h
      · simp [JsVal.isArr] at h
      · simp [JsVal.elems] at h
  | num n => exact ⟨.num 0, .num 0, .num 0, .num 0, rfl⟩
  | str s => exact ⟨.num 0, .num 0, .num 0, .num 0, rfl⟩
  | null => exact ⟨.num 0, .num 0, .num 0, .num 0, rfl⟩
  | undef => exact ⟨.num 0, .num 0, .num 0, .num 0, rfl⟩

/-- C8 (amended): for a confusion-matrix value that is not an array or
has at most two rows, renderConfusion never throws and normalizes the
value to a 2x2 matrix (truncating long rows, padding short or non-array
rows with zeros); a 1x1 matrix [[v]] becomes [[v,0],[0,0]].  Values
with three or more rows are passed through without normalization and
can throw while rendering (see the counterexample). -/
theorem c8_render_confusion (cm : JsVal)
    (h : cm.isArr = false ∨ cm.elems.length ≤ 2) :
    is2x2 (renderConfusionNormalize cm) = true ∧
    (∃ rows, renderRows cm = .ok rows) ∧
    (∀ v : ℚ, renderConfusionNormalize (.arr [.arr [.num v]]) =
      .arr [.arr [.num v, .num 0], .arr [.num 0, .num 0]]) := by
  obtain ⟨x1, y1, x2, y2, hn⟩ := normalize_shape cm h
  refine ⟨by rw [hn]; simp [is2x2], ?_, ?_⟩
  · refine ⟨[[x1, y1], [x2, y2]], ?_⟩
    unfold renderRows
    rw [hn]
    rfl
  · intro v
    have hred : renderConfusionNormalize (.arr [.arr [.num v]]) =
        fixLen2 (.arr [.arr [jsOrZero (.num v), .num 0], .arr [.num 0, .num 0]]) := rfl
    rw [hred]
    by_cases hv : v = 0
    · subst hv
      rfl
    · have hz : jsOrZero (.num v) = .num v := by
        simp [jsOrZero, JsVal.truthy, hv]
      rw [hz]
      rfl

/-- Witness for C8 at the concrete 1x1 matrix [[7]]: the normalized
value is the 2x2 matrix [[7,0],[0,0]] and rendering succeeds. -/
theorem c8_render_confusion_witness :
    is2x2 (renderConfusionNormalize (.arr [.arr [.num 7]])) = true ∧
    (∃ rows, renderRows (.arr [.arr [.num 7]]) = .ok rows) ∧
    renderConfusionNormalize (.arr [.arr [.num 7]]) =
      .arr [.arr [.num 7, .num 0], .arr [.num 0, .num 0]] := by
  have h := c8_render_confusion (.arr [.arr [.num 7]]) (Or.inr (by simp [JsVal.elems]))
  exact ⟨h.1, h.2.1, h.2.2 7⟩

/-! ## C9: overtime impact computation

Translated from calculateOvertimeImpact in the Insights component.  The
feature map is a JavaScript object filled by forEach assignment keyed on
the lowercased feature name, so the last feature with a given key wins.
Math.exp and Number.toFixed(1) are IEEE-double operations; they are
abstracted as function parameters, which the claim never needs to
evaluate. -/

structure Feature where
  feature : String
  coef : ℚ
  abs : ℚ
  deriving DecidableEq, Repr

/-- The JavaScript toLowerCase call, modelled directly over the
character list of the string. -/
def lowerName (s : String) : String :=
  String.mk (s.data.map Char.toLower)

def featureMapLookup (features : List Feature) (key : String) : Option Feature :=
  (features.filter (fun f => lowerName f.feature = key)).getLast?

inductive NumOrStr where
  | num (n : ℚ)
  | str (s : String)
  deriving DecidableEq, Repr

def calculateOvertimeImpact (jsExp : ℚ → ℚ) (toFixed1 : ℚ → String)
    (features : List Feature) : NumOrStr :=
  match (featureMapLookup features "overtime_yes").orElse
      (fun _ => featureMapLookup features "overtime") with
  | none => .num 0
  | some f => .str (toFixed1 ((jsExp f.coef - 1) * 100))

theorem featureMapLookup_eq_none (features : List Feature) (key : String)
    (h : ∀ f ∈ features, lowerName f.feature ≠ key) :
    featureMapLookup features key = none := by
  unfold featureMapLookup
  have : features.filter (fun f => lowerName f.feature = key) = [] := by
    rw [List.filter_eq_nil_iff]
    intro f hf
    simp [h f hf]
  rw [this]
  rfl

theorem featureMapLookup_mem {features : List Feature} {key : String} {g : Feature}
    (h : featureMapLookup features key = some g) :
    g ∈ features ∧ lowerName g.feature = key := by
  unfold featureMapLookup at h
  have hmem := List.mem_of_getLast?_eq_some h
  constructor
  · exact List.mem_of_mem_filter hmem
  · have := List.of_mem_filter hmem
    simpa using this

/-- C9: calculateOvertimeImpact returns the number 0 when no feature is
named (case-insensitively) overtime_yes or overtime, and otherwise
returns a string: the one-decimal rendering of (e^c - 1) * 100 for the
coefficient c of the feature found in the map — so the two branches
return values of different types. -/
theorem c9_overtime_impact (jsExp : ℚ → ℚ) (toFixed1 : ℚ → String)
    (features : List Feature) :
    ((∀ f ∈ features, lowerName f.feature ≠ "overtime_yes" ∧ lowerName f.feature ≠ "overtime") →
      calculateOvertimeImpact jsExp toFixed1 features = .num 0) ∧
    (∀ g, (featureMapLookup features "overtime_yes").orElse
        (fun _ => featureMapLookup features "overtime") = some g →
      calculateOvertimeImpact jsExp toFixed1 features =
        .str (toFixed1 ((jsExp g.coef - 1) * 100)) ∧
      g ∈ features ∧
      (lowerName g.feature = "overtime_yes" ∨ lowerName g.feature = "overtime")) := by
  constructor
  · intro h
    have h1 : featureMapLookup features "overtime_yes" = none :=
      featureMapLookup_eq_none features _ (fun f hf => (h f hf).1)
    have h2 : featureMapLookup features "overtime" = none :=
      featureMapLookup_eq_none features _ (fun f hf => (h f hf).2)
    unfold calculateOvertimeImpact
    rw [h1, h2]
    rfl
  · intro g hg
    refine ⟨by unfold calculateOvertimeImpact; rw [hg], ?_⟩
    cases h1 : featureMapLookup features "overtime_yes" with
    | some f =>
      rw [h1] at hg
      simp only [Option.orElse] at hg
      cases hg
      have := featureMapLookup_mem h1
      exact ⟨this.1, Or.inl this.2⟩
    | none =>
      rw [h1] at hg
      simp only [Option.orElse] at hg
      have := featureMapLookup_mem hg
      exact ⟨this.1, Or.inr this.2⟩

/-- Witness for C9: a batch with one OverTime_Yes feature takes the
string branch, and a batch with no overtime feature returns the
number 0. -/
theorem c9_overtime_impact_witness :
    calculateOvertimeImpact (fun q => q) (fun _ => "8.0") [⟨"OverTime_Yes", 1, 1⟩] =
      .str ((fun _ : ℚ => "8.0") (((fun q : ℚ => q) 1 - 1) * 100)) ∧
    calculateOvertimeImpact (fun q => q) (fun _ => "8.0") [⟨"Age", 1, 1⟩] = .num 0 := by
  constructor
  · exact ((c9_overtime_impact (fun q => q) (fun _ => "8.0") [⟨"OverTime_Yes", 1, 1⟩]).2
      ⟨"OverTime_Yes", 1, 1⟩ (by decide)).1
  · exact (c9_overtime_impact (fun q => q) (fun _ => "8.0") [⟨"Age", 1, 1⟩]).1
      (by decide)

/-! ## C10: insight generation

Translated from generateInsights in the Insights component.  Each
insight card is reduced to its tag: the decorative text, gradient and
severity fields play no role in the claim.  The firing condition of
every rule is translated exactly, including the JavaScript falsy
fallthrough in the coefficient chains (a present coefficient of 0 falls
through to the next alternative). -/

/-- The JavaScript String.includes test, over character lists. -/
def containsSub (hay sub : List Char) : Bool :=
  match hay with
  | [] => sub.isEmpty
  | _ :: t => sub.isPrefixOf hay || containsSub t sub

def strContains (s sub : String) : Bool :=
  containsSub s.data sub.data

/-- The JavaScript chain a || b on possibly-missing numbers: a present
value of 0 is falsy and falls through. -/
def jsNumOr (a : Option ℚ) (dflt : ℚ) : ℚ :=
  match a with
  | some x => if x = 0 then dflt else x
  | none => dflt

inductive InsightTag where
  | attritionRate
  | overtimeImpact
  | satisfaction
  | jobRole
  | tenure
  | compensation
  | performance
  | analysisSummary
  deriving DecidableEq, Repr

def attritionRateSeg (analysis : AnalysisObj) : List InsightTag :=
  if (calculateAttritionStats analysis).totalEmployees > 0 then [.attritionRate] else []

def overtimeCoefOf (features : List Feature) : ℚ :=
  jsNumOr ((featureMapLookup features "overtime_yes").map (fun f => f.coef))
    (jsNumOr ((featureMapLookup features "overtime").map (fun f => f.coef)) 0)

def overtimeSeg (features : List Feature) : List InsightTag :=
  if (featureMapLookup features "overtime_yes").isSome ||
      (featureMapLookup features "overtime").isSome then
    if |overtimeCoefOf features| > 3/10 then [.overtimeImpact] else []
  else []

def satisfactionSeg (features : List Feature) : List InsightTag :=
  let sf := features.filter (fun f => strContains (lowerName f.feature) "satisf")
  if sf.length > 0 then
    if |(sf.map (fun f => f.coef)).sum / (sf.length : ℚ)| > 3/10 then [.satisfaction] else []
  else []

def roleSeg (features : List Feature) : List InsightTag :=
  if (features.filter (fun f =>
      strContains (lowerName f.feature) "role" || strContains (lowerName f.feature) "job")).length
      > 0 then
    [.jobRole]
  else []

def tenureSeg (features : List Feature) : List InsightTag :=
  let tf := features.filter (fun f => strContains (lowerName f.feature) "year")
  if tf.length > 0 then
    if (tf.map (fun f => |f.coef|)).sum / (tf.length : ℚ) > 1/5 then [.tenure] else []
  else []

def incomeCoefOf (features : List Feature) : ℚ :=
  jsNumOr ((featureMapLookup features "monthlyincome").map (fun f => f.coef))
    (jsNumOr ((featureMapLookup features "monthly_income").map (fun f => f.coef)) 0)

def incomeSeg (features : List Feature) : List InsightTag :=
  if (featureMapLookup features "monthlyincome").isSome ||
      (featureMapLookup features "monthly_income").isSome then
    if |incomeCoefOf features| > 3/10 then [.compensation] else []
  else []

def performanceSeg (analysis : AnalysisObj) : List InsightTag :=
  if analysis.metrics.isSome then [.performance] else []

def generateInsights (analysis : AnalysisObj) (features : List Feature) : List InsightTag :=
  let insights :=
    attritionRateSeg analysis ++ overtimeSeg features ++ satisfactionSeg features ++
      roleSeg features ++ tenureSeg features ++ incomeSeg features ++ performanceSeg analysis
  if insights.length > 0 then insights else [.analysisSummary]

theorem mem_attritionRateSeg {x : InsightTag} {analysis : AnalysisObj}
    (h : x ∈ attritionRateSeg analysis) : x = .attritionRate := by
  simp only [attritionRateSeg] at h
  split_ifs at h <;> simp_all

theorem mem_overtimeSeg {x : InsightTag} {features : List Feature}
    (h : x ∈ overtimeSeg features) : x = .overtimeImpact := by
  simp only [overtimeSeg] at h
  split_ifs at h <;> simp_all

theorem mem_satisfactionSeg {x : InsightTag} {features : List Feature}
    (h : x ∈ satisfactionSeg features) : x = .satisfaction := by
  simp only [satisfactionSeg] at h
  split_ifs at h <;> simp_all

theorem mem_roleSeg {x : InsightTag} {features : List Feature}
    (h : x ∈ roleSeg features) : x = .jobRole := by
  simp only [roleSeg] at h
  split_ifs at h <;> simp_all

theorem mem_tenureSeg {x : InsightTag} {features : List Feature}
    (h : x ∈ tenureSeg features) : x = .tenure := by
  simp only [tenureSeg] at h
  split_ifs at h <;> simp_all

theorem mem_incomeSeg {x : InsightTag} {features : List Feature}
    (h : x ∈ incomeSeg features) : x = .compensation := by
  simp only [incomeSeg] at h
  split_ifs at h <;> simp_all

theorem mem_performanceSeg {x : InsightTag} {analysis : AnalysisObj}
    (h : x ∈ performanceSeg analysis) : x = .performance := by
  simp only [performanceSeg] at h
  split_ifs at h <;> simp_all

/-- C10: generateInsights always returns a non-empty list; the default
Analysis Summary insight appears only as the whole singleton result,
exactly when no specific rule fires; and a present metrics object makes
the model-performance rule fire. -/
theorem c10_generate_insights (analysis : AnalysisObj) (features : List Feature) :
    generateInsights analysis features ≠ [] ∧
    (InsightTag.analysisSummary ∈ generateInsights analysis features →
      generateInsights analysis features = [.analysisSummary]) ∧
    (analysis.metrics.isSome = true →
      InsightTag.performance ∈ generateInsights analysis features) := by
  refine ⟨?_, ?_, ?_⟩
  · simp only [generateInsights]
    split_ifs with h
    · exact List.ne_nil_of_length_pos h
    · simp
  · intro hmem
    simp only [generateInsights] at hmem ⊢
    split_ifs at hmem ⊢ with h
    · exfalso
      simp only [List.mem_append] at hmem
      rcases hmem with ((((((h1 | h2) | h3) | h4) | h5) | h6) | h7)
      · exact absurd (mem_attritionRateSeg h1) (by simp)
      · exact absurd (mem_overtimeSeg h2) (by simp)
      · exact absurd (mem_satisfactionSeg h3) (by simp)
      · exact absurd (mem_roleSeg h4) (by simp)
      · exact absurd (mem_tenureSeg h5) (by simp)
      · exact absurd (mem_incomeSeg h6) (by simp)
      · exact absurd (mem_performanceSeg h7) (by simp)
    · rfl
  · intro hm
    have hx : InsightTag.performance ∈
        attritionRateSeg analysis ++ overtimeSeg features ++ satisfactionSeg features ++
          roleSeg features ++ tenureSeg features ++ incomeSeg features ++
          performanceSeg analysis := by
      simp only [List.mem_append]
      right
      simp [performanceSeg, hm]
    simp only [generateInsights]
    rw [if_pos (List.length_pos.mpr (List.ne_nil_of_mem hx))]
    exact hx

/-- Witness for C10: with no metrics, no artifacts and a single neutral
feature no rule fires and the result is exactly the default insight;
with a metrics object present the performance insight fires. -/
theorem c10_generate_insights_witness :
    InsightTag.analysisSummary ∈ generateInsights ⟨none, none⟩ [⟨"XCol", 0, 0⟩] ∧
    generateInsights ⟨none, none⟩ [⟨"XCol", 0, 0⟩] = [.analysisSummary] ∧
    InsightTag.performance ∈
      generateInsights ⟨some ⟨1, 1, 1, 1⟩, none⟩ [⟨"XCol", 0, 0⟩] := by
  have hdef : generateInsights ⟨none, none⟩ [⟨"XCol", 0, 0⟩] = [.analysisSummary] := by
    rfl
  have hmem : InsightTag.analysisSummary ∈ generateInsights ⟨none, none⟩ [⟨"XCol", 0, 0⟩] := by
    rw [hdef]
    exact List.mem_singleton.mpr rfl
  exact ⟨hmem, (c10_generate_insights ⟨none, none⟩ [⟨"XCol", 0, 0⟩]).2.1 hmem,
    (c10_generate_insights ⟨some ⟨1, 1, 1, 1⟩, none⟩ [⟨"XCol", 0, 0⟩]).2.2 rfl⟩

/-! ## C5: feature importance ordering

The backend computes the FeatureImportance artifact; it is absent from
the checked-in sources, so the ordering is modelled from the spec:
descending by absolute coefficient, ties broken by original vocabulary
position. -/

/-- Modelled from the spec: entry a precedes entry b when its absolute
coefficient is strictly larger, or the absolute coefficients tie and a
comes first in the original vocabulary. -/
def impRel (a b : Nat × String × ℚ) : Prop :=
  |a.2.2| > |b.2.2| ∨ (|a.2.2| = |b.2.2| ∧ a.1 ≤ b.1)

instance : DecidableRel impRel := fun a b => by
  unfold impRel
  infer_instance

instance : IsTotal (Nat × String × ℚ) impRel := by
  constructor
  intro a b
  rcases lt_trichotomy |a.2.2| |b.2.2| with h | h | h
  · exact Or.inr (Or.inl h)
  · rcases Nat.le_total a.1 b.1 with hle | hle
    · exact Or.inl (Or.inr ⟨h, hle⟩)
    · exact Or.inr (Or.inr ⟨h.symm, hle⟩)
  · exact Or.inl (Or.inl h)

instance : IsTrans (Nat × String × ℚ) impRel := by
  constructor
  intro a b c hab hbc
  rcases hab with hab | ⟨hab, hab2⟩ <;> rcases hbc with hbc | ⟨hbc, hbc2⟩
  · exact Or.inl (lt_trans hbc hab)
  · exact Or.inl (hbc ▸ hab)
  · exact Or.inl (hab ▸ hbc)
  · exact Or.inr ⟨hab.trans hbc, hab2.trans hbc2⟩

/-- Modelled from the spec: the vocabulary entries paired with their
positions and coefficients, sorted by impRel. -/
def featureOrder (coefs : List (String × ℚ)) : List (Nat × String × ℚ) :=
  List.insertionSort impRel (coefs.enum.map (fun x => (x.1, x.2.1, x.2.2)))

/-- Modelled from the spec: the FeatureImportance list of (feature name,
coefficient, absolute coefficient) triples in sorted order. -/
def featureImportance (coefs : List (String × ℚ)) : List Feature :=
  (featureOrder coefs).map (fun x => ⟨x.2.1, x.2.2, |x.2.2|⟩)

/-- C5: the FeatureImportance list is sorted descending by absolute
coefficient with ties broken by original vocabulary order; it is a
permutation of the vocabulary paired with its coefficients; its third
component is the absolute value of the coefficient; and every prefix
holds features whose absolute coefficients dominate the rest of the
list. -/
theorem c5_feature_importance (coefs : List (String × ℚ)) :
    List.Sorted impRel (featureOrder coefs) ∧
    List.Sorted (fun a b : Feature => a.abs ≥ b.abs) (featureImportance coefs) ∧
    ((featureImportance coefs).map (fun f => (f.feature, f.coef))).Perm coefs ∧
    (∀ f ∈ featureImportance coefs, f.abs = |f.coef|) ∧
    (∀ k, ∀ x ∈ (featureImportance coefs).take k,
      ∀ y ∈ (featureImportance coefs).drop k, x.abs ≥ y.abs) := by
  have hsorted : List.Sorted impRel (featureOrder coefs) :=
    List.sorted_insertionSort impRel _
  have habs : List.Sorted (fun a b : Feature => a.abs ≥ b.abs) (featureImportance coefs) := by
    unfold featureImportance
    refine List.Pairwise.map _ ?_ hsorted
    intro a b hab
    rcases hab with hab | ⟨hab, _⟩
    · exact le_of_lt hab
    · exact le_of_eq hab.symm
  refine ⟨hsorted, habs, ?_, ?_, ?_⟩
  · have hperm : (featureOrder coefs).Perm (coefs.enum.map (fun x => (x.1, x.2.1, x.2.2))) :=
      List.perm_insertionSort impRel _
    have hmap := hperm.map (fun x : Nat × String × ℚ => (x.2.1, x.2.2))
    have hcomp : (featureImportance coefs).map (fun f => (f.feature, f.coef)) =
        (featureOrder coefs).map (fun x : Nat × String × ℚ => (x.2.1, x.2.2)) := by
      unfold featureImportance
      rw [List.map_map]
      rfl
    rw [hcomp]
    have hrhs : ((coefs.enum.map (fun x : Nat × (String × ℚ) => (x.1, x.2.1, x.2.2))).map
        (fun x : Nat × String × ℚ => (x.2.1, x.2.2))) = coefs := by
      rw [List.map_map]
      have : ((fun x : Nat × String × ℚ => (x.2.1, x.2.2)) ∘
          (fun x : Nat × (String × ℚ) => (x.1, x.2.1, x.2.2))) = Prod.snd := by
        funext x
        rfl
      rw [this, List.enum_map_snd]
    rw [hrhs] at hmap
    exact hmap
  · intro f hf
    unfold featureImportance at hf
    obtain ⟨x, _, hx⟩ := List.mem_map.mp hf
    rw [← hx]
  · intro k x hx y hy
    have hsplit := (featureImportance coefs).take_append_drop k
    have hpair : List.Pairwise (fun a b : Feature => a.abs ≥ b.abs)
        ((featureImportance coefs).take k ++ (featureImportance coefs).drop k) := by
      rw [hsplit]
      exact habs
    exact (List.pairwise_append.mp hpair).2.2 x hx y hy

/-- Witness for C5 on a concrete two-entry vocabulary: the larger
absolute coefficient comes first, and the absolute-value component of a
member equals the absolute value of its coefficient. -/
theorem c5_feature_importance_witness :
    featureImportance [("A", 1), ("B", -2)] = [⟨"B", -2, 2⟩, ⟨"A", 1, 1⟩] ∧
    (⟨"B", -2, 2⟩ : Feature).abs = |(⟨"B", -2, 2⟩ : Feature).coef| := by
  constructor
  · decide
  · exact (c5_feature_importance [("A", 1), ("B", -2)]).2.2.2.1 ⟨"B", -2, 2⟩ (by decide)

/-! ## C7: encoding a row missing a numeric column -/

inductive RawVal where
  | num (q : ℚ)
  | str (s : String)
  deriving DecidableEq, Repr

inductive VocabEntry where
  | numericCol (col : String)
  | oneHot (col : String) (cat : String)
  deriving DecidableEq, Repr

inductive EncodingError where
  | encodingError
  deriving DecidableEq, Repr

abbrev Row := List (String × RawVal)

def parseNum (v : RawVal) : Option ℚ :=
  match v with
  | .num q => some q
  | .str s => (s.toInt?).map (fun n => (n : ℚ))

/-- Modelled from the spec: the Feature Encoder (absent from the
checked-in sources) encodes a row against the training vocabulary.
Numeric columns pass through and fail with EncodingError when missing
or unparseable — no imputation or default; one-hot entries emit 1
exactly when the row value is the entry category, and an unseen or
missing category yields 0 without error. -/
def encodeRow (vocab : List VocabEntry) (row : Row) : Except EncodingError (List ℚ) :=
  match vocab with
  | [] => .ok []
  | .numericCol c :: vs =>
    match row.lookup c with
    | none => .error .encodingError
    | some v =>
      match parseNum v with
      | none => .error .encodingError
      | some q => (encodeRow vs row).map (fun xs => q :: xs)
  | .oneHot c cat :: vs =>
    (encodeRow vs row).map
      (fun xs => (if row.lookup c = some (.str cat) then (1 : ℚ) else 0) :: xs)

/-- C7: scoring a row that is missing a numeric column present in the
training vocabulary fails with EncodingError — no implicit imputation
or default value is substituted. -/
theorem c7_missing_numeric (vocab : List VocabEntry) (row : Row) (col : String)
    (hmem : VocabEntry.numericCol col ∈ vocab) (hmiss : row.lookup col = none) :
    encodeRow vocab row = .error .encodingError := by
  induction vocab with
  | nil => cases hmem
  | cons v vs ih =>
    cases v with
    | numericCol c =>
      rcases List.mem_cons.mp hmem with heq | hmem2
      · injection heq with h
        subst h
        simp [encodeRow, hmiss]
      · cases hl : row.lookup c with
        | none => simp [encodeRow, hl]
        | some v0 =>
          cases hp : parseNum v0 with
          | none => simp [encodeRow, hl, hp]
          | some q => simp [encodeRow, hl, hp, ih hmem2, Except.map]
    | oneHot c cat =>
      have h2 : VocabEntry.numericCol col ∈ vs := by
        rcases List.mem_cons.mp hmem with heq | hmem2
        · exact absurd heq (by simp)
        · exact hmem2
      simp [encodeRow, ih h2, Except.map]

/-- Witness for C7: a vocabulary holding the numeric Age column against
an empty row fails with EncodingError. -/
theorem c7_missing_numeric_witness :
    encodeRow [.numericCol "Age"] [] = .error .encodingError :=
  c7_missing_numeric [.numericCol "Age"] [] "Age" (by simp) rfl

end Attrition
